import Mathlib

/-!
# Verification of the OpenList downloader core

A shallow embedding of `src/openlist_downloader/downloader.py` (and the
surrounding `main.py` control flow), together with proofs about the
natural-language specification's claims.

Modelling conventions, used throughout:

* Parsed JSON documents are modelled by the inductive `Json` below.  JSON
  numbers are modelled as integers (the remote API only ever reports integral
  sizes and codes); JSON objects model parsed Python dicts, so keys are
  assumed unique and field access is association-list lookup.
* A Python value that may be `None` is an `Option`.
* An uncaught Python exception is modelled by `none` in an `Option`-valued
  result (for functions that can raise to their caller) or by `Except.error`.
* The network is a deterministic environment: each HTTP request made by the
  code is answered by an oracle recorded in an explicit environment
  structure.  A transport-level failure (timeout, connection error — i.e.
  `requests` raising) is the oracle answering `none`; otherwise the oracle
  provides the HTTP status, the parsed body (or `none` when the body is not
  valid JSON), and the raw text.
* The local filesystem is a map from path to file content (a byte list);
  directories are not modelled except through the explicit success/failure
  oracles of the operations that touch them.
-/

namespace OpenList

/-- Parsed JSON values, as produced by Python's `json` module.  Numbers are
restricted to integers; objects model Python dicts (unique keys). -/
inductive Json where
  | null : Json
  | bool (b : Bool) : Json
  | num (n : Int) : Json
  | str (s : String) : Json
  | arr (xs : List Json) : Json
  | obj (fields : List (String × Json)) : Json

/-- Python truthiness of a JSON value (`if not data: ...`). -/
def Json.falsy : Json → Bool
  | .null => true
  | .bool b => !b
  | .num n => n == 0
  | .str s => s == ""
  | .arr xs => xs.isEmpty
  | .obj fields => fields.isEmpty

/-- Python `==` between an `int` and a decoded JSON value (`int == bool`
compares through the numeric value of the bool in Python). -/
def pyEqInt (n : Int) : Json → Bool
  | .num m => n == m
  | .bool b => n == (if b then 1 else 0)
  | _ => false

/-- Python `==` between an `int` and a possibly-`None` JSON value. -/
def pyEqIntO (n : Int) : Option Json → Bool
  | some v => pyEqInt n v
  | none => false

/-- One remote file entry as built by `list_dir`: the Python dict
`{"name": ..., "path": ..., "size": ...}`. -/
structure Entry where
  name : String
  path : String
  size : Int
deriving DecidableEq

/-! ## Manifest store (`save_filelist` / `load_filelist`)

The manifest side file is modelled as one slot of a JSON-valued file store:
Python's `json.dump`/`json.load` round-trip text serialization is modelled at
the level of parsed JSON values (the textual layer belongs to the Python
standard library, outside this repository). -/

/-- A store of JSON-valued files: `none` means the file does not exist. -/
abbrev JsonFS := String → Option Json

/-- The JSON object written for one entry dict. -/
def entryToJson (e : Entry) : Json :=
  .obj [("name", .str e.name), ("path", .str e.path), ("size", .num e.size)]

/-- The JSON array written by `json.dump(filelist, ...)`. -/
def filelistToJson (filelist : List Entry) : Json :=
  .arr (filelist.map entryToJson)

/-- `save_filelist`: writes the JSON array for `filelist` to `path`
(source lines 296-306; `ensure_ascii=False, indent=2` only affect the
textual layer, which is modelled at the JSON-value level). -/
def save_filelist (filelist : List Entry) (fs : JsonFS) (path : String) : JsonFS :=
  fun q => if q = path then some (filelistToJson filelist) else fs q

/-- `load_filelist`: returns the parsed content of `path` when the file
exists, `None` otherwise (source lines 308-321). -/
def load_filelist (fs : JsonFS) (path : String) : Option Json :=
  fs path

/-- Reading one loaded JSON object back as a typed entry: the dict/record
correspondence of the data model (name and path strings, integer size). -/
def jsonToEntry : Json → Option Entry
  | .obj fields =>
    match fields.lookup "name", fields.lookup "path", fields.lookup "size" with
    | some (.str n), some (.str p), some (.num s) => some ⟨n, p, s⟩
    | _, _, _ => none
  | _ => none

/-- Reading a loaded JSON list back as typed entries, in order. -/
def decodeEntries : List Json → Option (List Entry)
  | [] => some []
  | j :: rest =>
    match jsonToEntry j, decodeEntries rest with
    | some e, some es => some (e :: es)
    | _, _ => none

/-- Reading a loaded manifest back as a typed entry sequence. -/
def jsonToFilelist : Json → Option (List Entry)
  | .arr xs => decodeEntries xs
  | _ => none

/-! ## Lister (`list_dir`, source lines 116-188)

The remote tree is a forest of `FSNode`s.  A well-formed page `pg`
(0-based here; the source counts pages from 1) of a directory with child
list `cs` carries the slice `(cs.drop (pg * k)).take k` where `k` is the
configured `page_size`.  The environment `deco` says, for every directory
path and page number, whether that page request succeeds or hits one of
the error branches of the source's pagination loop. -/

/-- A node of the remote directory tree: a file (whose listing may or may
not carry a `size` field) or a directory with an ordered child list. -/
inductive FSNode where
  | file (name : String) (size : Option Int) : FSNode
  | dir (name : String) (children : List FSNode) : FSNode

mutual
/-- Termination measure: combinatorial weight of a node. -/
def FSNode.weight : FSNode → Nat
  | .file _ _ => 1
  | .dir _ cs => 2 + weightList cs
/-- Termination measure: combinatorial weight of a forest. -/
def weightList : List FSNode → Nat
  | [] => 0
  | c :: cs => c.weight + weightList cs
end

/-- The name of a listed item (the `name` field of the listing dict). -/
def FSNode.name : FSNode → String
  | .file n _ => n
  | .dir n _ => n

/-- `f"{path.rstrip('/')}/{item['name']}"` (source line 172): all trailing
slashes stripped from the parent path, then `"/"`, then the item name. -/
def rstripSlash (s : String) : String :=
  ⟨(s.data.reverse.dropWhile (fun c => c = '/')).reverse⟩

/-- The full path of a child of directory `path` named `name`. -/
def joinPath (path name : String) : String :=
  rstripSlash path ++ "/" ++ name

/-- Classification of the response to one page request, one constructor per
branch of the source's pagination loop body (lines 140-163):
`ok` is a well-formed page; the five `err*` constructors are the five
logged branches that `break` out of the current directory's loop
(`requests.Timeout`, another transport exception, a non-200 HTTP status, a
body that is not valid JSON, an application-level `code != 200`); and
`badShape` is a status-200 `code == 200` response whose `data` /
`data.content` is missing or not subscriptable, which makes line 163
(`data["data"]["content"]`, outside any `try`) raise to the caller. -/
inductive PageResp where
  | ok
  | errTimeout
  | errTransport
  | errStatus
  | errJson
  | errCode
  | badShape
deriving DecidableEq

/-- A listing environment: the response classification for every directory
path and 0-based page number. -/
abbrev ListEnv := String → Nat → PageResp

mutual
/-- The body of the `for item in content:` loop of `list_dir` (source lines
171-181): a file item contributes one entry dict; a directory item is
recursed into immediately (pre-order), splicing the recursive listing into
the output; an exception in a recursive call propagates (`none`). -/
def processItems (k : Nat) (deco : ListEnv) (path : String) :
    List FSNode → Option (List Entry)
  | [] => some []
  | .file n s :: rest =>
    match processItems k deco path rest with
    | some es => some (⟨n, joinPath path n, s.getD 0⟩ :: es)
    | none => none
  | .dir n cs :: rest =>
    match listDirGo k deco (joinPath path n) cs 0 with
    | none => none
    | some sub =>
      match processItems k deco path rest with
      | some es => some (sub ++ es)
      | none => none
termination_by items => ((weightList items, 0) : Nat × Nat)
decreasing_by
  all_goals apply Prod.Lex.left
  all_goals simp only [weightList, FSNode.weight]
  all_goals omega

/-- The pagination loop of `list_dir` (source lines 131-185), from 0-based
page `pg` on: an error branch breaks, returning the entries accumulated in
later-discarded pages as `[]` (the caller keeps what earlier pages
produced); a `badShape` response raises; an empty page breaks; a short page
(fewer than `page_size` items) breaks after processing; otherwise the next
page is requested. -/
def listDirGo (k : Nat) (deco : ListEnv) (path : String)
    (children : List FSNode) (pg : Nat) : Option (List Entry) :=
  match deco path pg with
  | .errTimeout => some []
  | .errTransport => some []
  | .errStatus => some []
  | .errJson => some []
  | .errCode => some []
  | .badShape => none
  | .ok =>
    if hc : ((children.drop (pg * k)).take k).isEmpty then some []
    else
      match processItems k deco path ((children.drop (pg * k)).take k) with
      | none => none
      | some es =>
        if hs : ((children.drop (pg * k)).take k).length < k then some es
        else
          match listDirGo k deco path children (pg + 1) with
          | none => none
          | some rest => some (es ++ rest)
termination_by
  ((weightList children + 1, children.length + 1 - pg * k) : Nat × Nat)
decreasing_by
  · -- page content: a slice of the child list is no heavier than the list
    apply Prod.Lex.left
    have hw : ∀ (l : List FSNode) (a b : Nat),
        weightList ((l.drop a).take b) ≤ weightList l := by
      intro l
      induction l with
      | nil => intro a b; simp [weightList]
      | cons c t ih =>
        intro a b
        cases a with
        | zero =>
          cases b with
          | zero => simp [weightList]
          | succ b =>
            simp only [List.drop_zero, List.take_succ_cons, weightList]
            have := ih 0 b
            simp only [List.drop_zero] at this
            omega
        | succ a =>
          simp only [List.drop_succ_cons]
          have := ih a b
          have hle : weightList t ≤ weightList (c :: t) := by
            simp only [weightList]; omega
          omega
    have := hw children (pg * k) k
    omega
  · -- next page: the unserved suffix strictly shrinks
    apply Prod.Lex.right
    have hlen : ((children.drop (pg * k)).take k).length ≤ k :=
      List.length_take_le _ _
    have hlen2 : ((children.drop (pg * k)).take k).length ≤
        children.length - pg * k := by
      have h1 := List.length_take k (children.drop (pg * k))
      have h2 := List.length_drop (pg * k) children
      omega
    have hne : ((children.drop (pg * k)).take k).length ≠ 0 := by
      intro h0
      exact hc (List.isEmpty_iff_length_eq_zero.mpr h0)
    have hmul : (pg + 1) * k = pg * k + k := by ring
    omega
end

/-- `list_dir(path)` over environment `deco` and served tree `children`:
the pagination loop started at its first page. -/
def list_dir (k : Nat) (deco : ListEnv) (path : String)
    (children : List FSNode) : Option (List Entry) :=
  listDirGo k deco path children 0

/-- The error-free environment: every page of every directory succeeds. -/
def decoOk : ListEnv := fun _ _ => .ok

/-- The raw items served for one directory before its pagination loop
stops: the concatenation of the page slices up to (and including) the
first empty or short page, or up to the page where an error branch breaks
the loop.  This is a specification-side device used to state which portion
of a directory survives an error. -/
def rawSeq (k : Nat) (deco : ListEnv) (path : String)
    (children : List FSNode) (pg : Nat) : List FSNode :=
  match deco path pg with
  | .ok =>
    if ((children.drop (pg * k)).take k).isEmpty then []
    else if ((children.drop (pg * k)).take k).length < k then
      (children.drop (pg * k)).take k
    else
      (children.drop (pg * k)).take k ++ rawSeq k deco path children (pg + 1)
  | _ => []
termination_by children.length + 1 - pg * k
decreasing_by
  simp_wf
  rename_i hc hs
  have hlen : ((children.drop (pg * k)).take k).length ≤ k :=
    List.length_take_le _ _
  have hlen2 : ((children.drop (pg * k)).take k).length ≤
      children.length - pg * k := by
    have h1 := List.length_take k (children.drop (pg * k))
    have h2 := List.length_drop (pg * k) children
    omega
  have hne : ((children.drop (pg * k)).take k).length ≠ 0 := by
    intro h0
    exact hc (List.isEmpty_iff_length_eq_zero.mpr h0)
  have hmul : (pg + 1) * k = pg * k + k := by ring
  omega

mutual
/-- Pruning a served node: a directory's children are replaced by the
(recursively pruned) raw items its own pagination loop serves.  `fuel`
only bounds the recursion depth; it is irrelevant once at least the weight
of the forest (specification-side device). -/
def pruneNodeF (k : Nat) (deco : ListEnv) (fuel : Nat) (path : String) :
    FSNode → FSNode
  | .file n s => .file n s
  | .dir n cs =>
    match fuel with
    | 0 => .dir n cs
    | f + 1 =>
      .dir n (pruneItemsF k deco f (joinPath path n)
        (rawSeq k deco (joinPath path n) cs 0))
termination_by _x => ((fuel, 0) : Nat × Nat)
decreasing_by
  apply Prod.Lex.left; omega
/-- Pruning each served item of a directory (specification-side device). -/
def pruneItemsF (k : Nat) (deco : ListEnv) (fuel : Nat) (path : String) :
    List FSNode → List FSNode
  | [] => []
  | c :: rest =>
    pruneNodeF k deco fuel path c :: pruneItemsF k deco fuel path rest
termination_by l => ((fuel, l.length + 1) : Nat × Nat)
decreasing_by
  · apply Prod.Lex.right; simp only [List.length_cons]; omega
  · apply Prod.Lex.right; simp only [List.length_cons]; omega
end

/-- The part of the served tree that survives the error-truncated
pagination of every directory, starting from the root's child list
(specification-side device). -/
def prunedForest (k : Nat) (deco : ListEnv) (path : String)
    (children : List FSNode) : List FSNode :=
  pruneItemsF k deco (weightList children) path
    (rawSeq k deco path children 0)

mutual
/-- Specification-side pre-order traversal: the leaf entries reachable from
one node, with each entry's path the slash-joined ancestor chain and its
size defaulted to 0 when absent. -/
def leavesNode (path : String) : FSNode → List Entry
  | .file n s => [⟨n, joinPath path n, s.getD 0⟩]
  | .dir n cs => leavesList (joinPath path n) cs
/-- Specification-side pre-order traversal of a forest. -/
def leavesList (path : String) : List FSNode → List Entry
  | [] => []
  | c :: rest => leavesNode path c ++ leavesList path rest
end

/-! ## Transfer strategy — download
(`get_file_size`, `download_file`, `_download_via_stream`,
source lines 190-294) -/

/-- One HTTP response: status code, the parsed JSON body (`none` when the
body is not valid JSON, i.e. `resp.json()` raises `ValueError`), and the
raw response text. -/
structure HttpResp where
  status : Nat
  body : Option Json
  text : String

/-- The local filesystem visible to `download_file`: file content (a byte
list) per path; `none` means no file exists at that path. -/
abbrev LocalFS := String → Option (List Nat)

/-- Point update of the local filesystem. -/
def fsWrite (fs : LocalFS) (path : String) (content : List Nat) : LocalFS :=
  fun q => if q = path then some content else fs q

/-- The deterministic environment of one `download_file` call.  A `none`
response models the corresponding `requests` call raising (timeout or
transport error); `makedirsOk = false` models `os.makedirs` raising (for
example when a component of the target directory exists as a regular
file); `writeOk = false` models `open(local_path, "wb")` or a chunk write
raising after the file has been truncated. -/
structure DlEnv where
  makedirsOk : Bool
  statResp : Option HttpResp
  getResp : Option HttpResp
  rawGet : String → Option (Nat × List Nat)
  streamResp : Option (Nat × List Nat)
  writeOk : Bool

/-- Per-item transfer outcome, read off the log line the source prints. -/
inductive Outcome where
  | skipped
  | ok
  | failed
deriving DecidableEq

/-- `get_file_size` (source lines 190-214): `POST /api/fs/get`; on a 200
response with a JSON body whose `code == 200`, return
`data["data"].get("size", 0)`; every failure (transport exception, non-200
status, non-JSON body, application error code, missing or non-dict `data`
— the latter raise inside the `try` and are caught) returns `None`. -/
def get_file_size (statResp : Option HttpResp) : Option Json :=
  match statResp with
  | none => none
  | some r =>
    if r.status = 200 then
      match r.body with
      | none => none
      | some j =>
        match j with
        | .obj fields =>
          if pyEqIntO 200 (fields.lookup "code") then
            match fields.lookup "data" with
            | some (.obj dfields) =>
              some ((dfields.lookup "size").getD (.num 0))
            | _ => none
          else none
        | _ => none
    else none

/-- The result of one `download_file` call: the final local filesystem, the
reported outcome, and how many times the stream fallback and the direct
raw-url fetch were invoked. -/
structure DlResult where
  fs : LocalFS
  outcome : Outcome
  streamCalls : Nat
  rawFetches : Nat

/-- `_download_via_stream` (source lines 272-294): `POST /api/fs/stream`;
on a 200 response the body is written to the local file; a non-200 status
or any exception is caught and logged as a failure (a write failure leaves
the file truncated, since `open(..., "wb")` truncates before raising). -/
def download_via_stream (env : DlEnv) (fs : LocalFS) (localPath : String) :
    LocalFS × Outcome :=
  match env.streamResp with
  | none => (fs, .failed)
  | some (st, bytes) =>
    if st = 200 then
      if env.writeOk then (fsWrite fs localPath bytes, .ok)
      else (fsWrite fs localPath [], .failed)
    else (fs, .failed)

/-- The skip check of `download_file` (source lines 229-235): skip exactly
when skipping is configured, a local file exists with size greater than 0,
the remote stat succeeds, and the reported size compares `==` to the local
size. -/
def skipCheck (skipExisting : Bool) (statResp : Option HttpResp)
    (fs : LocalFS) (localPath : String) : Bool :=
  skipExisting &&
    match fs localPath with
    | none => false
    | some content =>
      decide (0 < content.length) &&
        match get_file_size statResp with
        | none => false
        | some v => pyEqInt (content.length : Int) v

/-- The `try` block of `download_file` once the skip check has declined
(source lines 237-270): the direct-URL path posts `/api/fs/get`.  A
transport exception is caught as a failure; a non-200 status, a body that
is not JSON or is falsy, or an application `code != 200` falls back to the
stream path; on a `code == 200` object, a missing or non-dict `data`
raises `KeyError`/`AttributeError` inside the `try` (caught: failure, no
fallback); an absent or falsy `raw_url` falls back to the stream path; a
truthy `raw_url` is fetched directly (a non-string one makes
`requests.get` raise, caught as a failure), writing the body on a 200
status and merely logging a failure otherwise.  Every branch produces an
outcome; nothing escapes the `try`. -/
def downloadTransfer (env : DlEnv) (fs : LocalFS) (localPath : String) :
    DlResult :=
  match env.getResp with
  | none => ⟨fs, .failed, 0, 0⟩
  | some resp =>
    if resp.status ≠ 200 then
      let s := download_via_stream env fs localPath
      ⟨s.1, s.2, 1, 0⟩
    else
      match resp.body with
      | none =>
        let s := download_via_stream env fs localPath
        ⟨s.1, s.2, 1, 0⟩
      | some j =>
        if j.falsy then
          let s := download_via_stream env fs localPath
          ⟨s.1, s.2, 1, 0⟩
        else
          match j with
          | .obj fields =>
            if !pyEqIntO 200 (fields.lookup "code") then
              let s := download_via_stream env fs localPath
              ⟨s.1, s.2, 1, 0⟩
            else
              match fields.lookup "data" with
              | some (.obj dfields) =>
                match dfields.lookup "raw_url" with
                | none =>
                  let s := download_via_stream env fs localPath
                  ⟨s.1, s.2, 1, 0⟩
                | some u =>
                  if u.falsy then
                    let s := download_via_stream env fs localPath
                    ⟨s.1, s.2, 1, 0⟩
                  else
                    match u with
                    | .str url =>
                      match env.rawGet url with
                      | none => ⟨fs, .failed, 0, 1⟩
                      | some (st, bytes) =>
                        if st = 200 then
                          if env.writeOk then
                            ⟨fsWrite fs localPath bytes, .ok, 0, 1⟩
                          else
                            ⟨fsWrite fs localPath [], .failed, 0, 1⟩
                        else ⟨fs, .failed, 0, 1⟩
                    | _ => ⟨fs, .failed, 0, 1⟩
              | _ => ⟨fs, .failed, 0, 0⟩
          | _ => ⟨fs, .failed, 0, 0⟩

/-- `download_file` (source lines 216-270).  `os.makedirs` (line 227) runs
before the `try` block, so its failure raises to the caller (`none`);
then the skip check; then the two-tier transfer. -/
def download_file (skipExisting : Bool) (env : DlEnv) (fs : LocalFS)
    (remotePath localPath : String) : Option DlResult :=
  if !env.makedirsOk then none
  else if skipCheck skipExisting env.statResp fs localPath then
    some ⟨fs, .skipped, 0, 0⟩
  else some (downloadTransfer env fs localPath)

/-- Specification-side classification: does this `/api/fs/get` response
make `download_file` take the stream fallback?  True exactly when the call
"fails outright" in the claim's sense (non-200 status, body not JSON or
falsy, application `code != 200`) or when a successful response carries a
`data` *object* whose `raw_url` is absent or falsy.  False for a transport
exception, for a truthy non-dict body, and — the corrected edge — for a
`code == 200` response whose `data` is missing or not a dict. -/
def getFallsBack : Option HttpResp → Bool
  | none => false
  | some r =>
    if r.status ≠ 200 then true
    else match r.body with
      | none => true
      | some j =>
        if j.falsy then true
        else match j with
          | .obj fields =>
            if !pyEqIntO 200 (fields.lookup "code") then true
            else match fields.lookup "data" with
              | some (.obj dfields) =>
                match dfields.lookup "raw_url" with
                | none => true
                | some u => u.falsy
              | _ => false
          | _ => false

/-- Specification-side classification: the truthy `raw_url` value carried
by a fully successful `/api/fs/get` response, when there is one; `none`
otherwise. -/
def getDirectUrl : Option HttpResp → Option Json
  | none => none
  | some r =>
    if r.status ≠ 200 then none
    else match r.body with
      | none => none
      | some j =>
        if j.falsy then none
        else match j with
          | .obj fields =>
            if !pyEqIntO 200 (fields.lookup "code") then none
            else match fields.lookup "data" with
              | some (.obj dfields) =>
                match dfields.lookup "raw_url" with
                | none => none
                | some u => if u.falsy then none else some u
              | _ => none
          | _ => none

/-! ## Transfer strategy — upload
(`upload_file`, `create_directory`, source lines 323-435) -/

/-- Is `needle` a prefix of the character list? -/
def charsPre : List Char → List Char → Bool
  | [], _ => true
  | _ :: _, [] => false
  | a :: as, b :: bs => a == b && charsPre as bs

/-- Does the character list contain `needle` as a contiguous run? -/
def charsContains (needle : List Char) : List Char → Bool
  | [] => charsPre needle []
  | c :: rest => charsPre needle (c :: rest) || charsContains needle rest

/-- Python's `needle in hay` on strings. -/
def strContains (hay needle : String) : Bool :=
  charsContains needle.data hay.data

/-- `'/'.join(remote_path.split('/')[:-1])` (source line 336): the parent
portion of the destination path. -/
def dirPart (p : String) : String :=
  String.intercalate "/" ((p.splitOn "/").dropLast)

/-- `create_directory` (source lines 389-435): `POST /api/fs/mkdir`.
Returns `True` on a 200 status with application `code == 200`, or on a
truthy body whose `message` contains "already exists"; returns `False` on
a transport exception, a non-JSON body, a 401 status, a `message` field
that is not a string (the `in` check raises, caught by the outer
`except`), or anything else. -/
def create_directory (mkdirResp : Option HttpResp) : Bool :=
  match mkdirResp with
  | none => false
  | some r =>
    match r.body with
    | none => false
    | some j =>
      match j with
      | .obj fields =>
        if r.status = 200 && pyEqIntO 200 (fields.lookup "code") then true
        else if !j.falsy then
          match (fields.lookup "message").getD (.str "") with
          | .str msg => strContains msg "already exists"
          | _ => false
        else false
      | _ =>
        -- A non-dict body: every route raises inside the `try` (`data.get`)
        -- or falls through; all of them return `False`.
        false

/-- The deterministic environment of one `upload_file` call.
`localExists` is the `os.path.exists` check on the local file;
`localReadOk = false` models `os.path.getmtime` or `open`/`read` raising
(caught by the outer `except`, yielding `False`). -/
structure UpEnv where
  localExists : Bool
  localReadOk : Bool
  mkdirResp : Option HttpResp
  putResp : Option HttpResp

/-- `upload_file` (source lines 323-387).  Returns the reported success
flag together with the diagnostic text captured when the PUT response body
is not JSON (`upload_resp.text[:1000]`, or "Empty response" when the text
is empty).  Note line 337-338: the result of `create_directory` is
computed and then discarded — the upload proceeds regardless of it. -/
def upload_file (env : UpEnv) (localPath remotePath : String) :
    Bool × Option String :=
  if !env.localExists then (false, none)
  else
    -- `self.create_directory(dir_path)` — return value discarded, as in
    -- the source.
    let _mkdirResult : Option Bool :=
      if dirPart remotePath ≠ "" then some (create_directory env.mkdirResp)
      else none
    if !env.localReadOk then (false, none)
    else
      match env.putResp with
      | none => (false, none)
      | some r =>
        match r.body with
        | none =>
          (false,
            some (if r.text = "" then "Empty response" else r.text.take 1000))
        | some j =>
          if r.status = 200 || r.status = 201 || r.status = 204 then
            match j with
            | .obj fields => (pyEqIntO 200 (fields.lookup "code"), none)
            | _ => (false, none)
          else (false, none)

/-! ## Orchestrator (`run`, source lines 455-541, and `main`) -/

/-- The errors `run` can raise: `login` raising, the upload mode's
`ValueError` on missing config keys, its `FileNotFoundError` on a missing
local root, the manifest-reuse mode's `FileNotFoundError`, an uncaught
exception escaping the fresh-mode `list_dir` call (line 512, outside any
`try`), and an uncaught exception in the dispatch loop's
`os.path.relpath(file_info["path"], start="/")` (line 530: `KeyError` or
`TypeError` on an item without a string `path`, `ValueError` on an empty
one). -/
inductive RunErr where
  | loginFailed
  | uploadConfigMissing
  | uploadRootMissing
  | manifestMissing
  | listingRaised
  | badEntryPath
deriving DecidableEq

/-- Python truthiness of an optional config string (`not local_upload_path`:
missing key or empty string). -/
def strFalsyO : Option String → Bool
  | none => true
  | some s => s == ""

/-- Can the dispatch loop of `run` (source lines 527-532) walk this loaded
manifest value without raising?  It iterates `all_files` and evaluates
`os.path.relpath(file_info["path"], start="/")` for every item in the main
thread: a truthy non-list value raises `TypeError` when iterated or
indexed, an item that is not a dict or has no `"path"` key raises
`TypeError`/`KeyError`, a non-string path makes `os.path.relpath` raise
`TypeError`, and an empty-string path makes it raise `ValueError`. -/
def dispatchOk : Json → Bool
  | .arr items =>
    items.all fun item =>
      match item with
      | .obj fields =>
        match fields.lookup "path" with
        | some (.str p) => !(p == "")
        | _ => false
      | _ => false
  | _ => false

/-- The environment of one `run` call: whether `login()` succeeds, the
upload config values and local state, the parsed manifest file (if it
exists) for manifest-reuse mode, and — for fresh mode — the configured
`page_size` and `remote_path` together with the remote tree and page
responses the live listing will see.  Per-item transfer outcomes are
deliberately absent: the worker pool's `as_completed` loop never calls
`future.result()`, so item results and even item exceptions never reach
`run`'s control flow. -/
structure RunEnv where
  loginOk : Bool
  uploadLocalPath : Option String
  uploadRemotePath : Option String
  uploadRootExists : Bool
  uploadLocalFiles : List (String × String)
  manifestFile : Option Json
  pageSize : Nat
  remotePath : String
  listDeco : ListEnv
  tree : List FSNode

/-- `run` (source lines 455-541): login, then dispatch on mode.  Upload
mode checks its config keys and local root and then always completes.
Manifest-reuse mode raises `FileNotFoundError` when the loaded manifest is
falsy (missing file or empty list), and raises from the dispatch loop when
a truthy manifest has an item without a usable path.  Fresh mode calls
`list_dir` with no surrounding `try`, so an exception escaping the lister
propagates; then it saves the manifest (the side-file write is modelled as
succeeding, as in the manifest store), returns in list-only mode or on an
empty listing, and otherwise dispatches — where an entry with an empty
path would raise in `os.path.relpath`.  Worker outcomes never affect the
result. -/
def run (listOnly downloadOnly uploadOnly : Bool) (env : RunEnv) :
    Except RunErr Unit :=
  if !env.loginOk then .error .loginFailed
  else if uploadOnly then
    if strFalsyO env.uploadLocalPath || strFalsyO env.uploadRemotePath then
      .error .uploadConfigMissing
    else if !env.uploadRootExists then .error .uploadRootMissing
    else .ok ()
  else if downloadOnly then
    match env.manifestFile with
    | none => .error .manifestMissing
    | some j =>
      if j.falsy then .error .manifestMissing
      else if dispatchOk j then .ok () else .error .badEntryPath
  else
    match list_dir env.pageSize env.listDeco env.remotePath env.tree with
    | none => .error .listingRaised
    | some entries =>
      if listOnly then .ok ()
      else if entries.isEmpty then .ok ()
      else if entries.all (fun e => !(e.path == "")) then .ok ()
      else .error .badEntryPath

/-- `main` (main.py lines 36-48): a `KeyboardInterrupt` is swallowed, every
other exception is logged and re-raised, producing a non-zero process
exit. -/
def mainExitsNonzero (r : Except RunErr Unit) : Bool :=
  match r with
  | .error _ => true
  | .ok _ => false

/-! # Theorems -/

/-! ## Manifest round-trip (C2) -/

theorem jsonToEntry_entryToJson (e : Entry) :
    jsonToEntry (entryToJson e) = some e := rfl

theorem decodeEntries_map (l : List Entry) :
    decodeEntries (l.map entryToJson) = some l := by
  induction l with
  | nil => rfl
  | cons e t ih => simp [decodeEntries, jsonToEntry_entryToJson, ih]

/-- C2: `save_filelist` followed by `load_filelist` on the same file path
returns a sequence equal to the original: the stored manifest is exactly
the JSON array of the saved entries, and reading it back as typed entries
is the identity, preserving name, path, size and order.  (The textual
serialization between JSON values and bytes belongs to Python's `json`
module and is modelled at the level of parsed values.) -/
theorem c2_save_load_roundtrip (l : List Entry) (fs : JsonFS) (p : String) :
    load_filelist (save_filelist l fs p) p = some (filelistToJson l) ∧
    jsonToFilelist (filelistToJson l) = some l := by
  constructor
  · simp [load_filelist, save_filelist]
  · simp [jsonToFilelist, filelistToJson, decodeEntries_map]

/-! ## Lister lemmas -/

theorem weight_pos (x : FSNode) : 0 < x.weight := by
  cases x <;> simp [FSNode.weight]

theorem weightList_cons (c : FSNode) (t : List FSNode) :
    weightList (c :: t) = c.weight + weightList t := by
  simp [weightList]

theorem weightList_append (a b : List FSNode) :
    weightList (a ++ b) = weightList a + weightList b := by
  induction a with
  | nil => simp [weightList]
  | cons c t ih => simp [weightList, ih]; omega

theorem weightList_take_add_drop (l : List FSNode) (n : Nat) :
    weightList (l.take n) + weightList (l.drop n) = weightList l := by
  induction l generalizing n with
  | nil => simp [weightList]
  | cons c t ih =>
    cases n with
    | zero => simp [weightList]
    | succ n =>
      simp only [List.take_succ_cons, List.drop_succ_cons, weightList]
      have := ih n
      omega

theorem weightList_take_le (l : List FSNode) (n : Nat) :
    weightList (l.take n) ≤ weightList l := by
  have := weightList_take_add_drop l n
  omega

theorem weightList_drop_le (l : List FSNode) (n : Nat) :
    weightList (l.drop n) ≤ weightList l := by
  have := weightList_take_add_drop l n
  omega

theorem processItems_append (k : Nat) (deco : ListEnv) (path : String)
    (l1 l2 : List FSNode) :
    processItems k deco path (l1 ++ l2) =
      (processItems k deco path l1).bind fun a =>
        (processItems k deco path l2).map fun b => a ++ b := by
  induction l1 with
  | nil =>
    cases h2 : processItems k deco path l2 <;> simp [processItems, h2]
  | cons c t ih =>
    cases c with
    | file n s =>
      cases h1 : processItems k deco path t <;>
        cases h2 : processItems k deco path l2 <;>
          simp [processItems, ih, h1, h2]
    | dir n cs =>
      cases hd : listDirGo k deco (joinPath path n) cs 0 <;>
        cases h1 : processItems k deco path t <;>
          cases h2 : processItems k deco path l2 <;>
            simp [processItems, ih, h1, h2, hd]

/-- The pagination loop from page `pg` on equals processing the raw item
sequence the pages serve, provided no page response has the raising shape. -/
theorem listDirGo_eq_raw (k : Nat) (hk : 0 < k) (deco : ListEnv)
    (hnb : ∀ p n, deco p n ≠ .badShape) (path : String) :
    ∀ (N : Nat) (children : List FSNode) (pg : Nat),
      children.length - pg * k ≤ N →
      listDirGo k deco path children pg =
        processItems k deco path (rawSeq k deco path children pg) := by
  intro N
  induction N with
  | zero =>
    intro children pg hN
    have hdrop : children.drop (pg * k) = [] :=
      List.drop_eq_nil_of_le (by omega)
    rw [listDirGo.eq_def, rawSeq.eq_def]
    cases hdeco : deco path pg with
    | badShape => exact absurd hdeco (hnb path pg)
    | ok => simp [hdrop, processItems]
    | errTimeout => simp [processItems]
    | errTransport => simp [processItems]
    | errStatus => simp [processItems]
    | errJson => simp [processItems]
    | errCode => simp [processItems]
  | succ N ih =>
    intro children pg hN
    rw [listDirGo.eq_def, rawSeq.eq_def]
    cases hdeco : deco path pg with
    | badShape => exact absurd hdeco (hnb path pg)
    | errTimeout => simp [processItems]
    | errTransport => simp [processItems]
    | errStatus => simp [processItems]
    | errJson => simp [processItems]
    | errCode => simp [processItems]
    | ok =>
      by_cases hemp : ((children.drop (pg * k)).take k).isEmpty
      · simp [hemp, processItems]
      · by_cases hshort : ((children.drop (pg * k)).take k).length < k
        · simp only [hemp, hshort, if_true, if_false, Bool.false_eq_true,
            dite_eq_ite]
          cases hP : processItems k deco path ((children.drop (pg * k)).take k) <;>
            simp [hP]
        · have hslice : ((children.drop (pg * k)).take k).length ≤ k :=
            List.length_take_le _ _
          have hlen2 : ((children.drop (pg * k)).take k).length ≤
              children.length - pg * k := by
            have h1 := List.length_take k (children.drop (pg * k))
            have h2 := List.length_drop (pg * k) children
            omega
          have hmul : (pg + 1) * k = pg * k + k := by ring
          have hmeas : children.length - (pg + 1) * k ≤ N := by omega
          have hrec := ih children (pg + 1) hmeas
          simp only [hemp, hshort, if_true, if_false, Bool.false_eq_true,
            dite_eq_ite]
          rw [processItems_append, hrec]
          cases hP : processItems k deco path ((children.drop (pg * k)).take k) <;>
            cases hR : processItems k deco path
              (rawSeq k deco path children (pg + 1)) <;>
              simp [hP, hR]

/-- The raw item sequence a directory's pages serve is no heavier than the
suffix of the child list it is cut from. -/
theorem rawSeq_weight_le (k : Nat) (deco : ListEnv) (path : String) :
    ∀ (N : Nat) (children : List FSNode) (pg : Nat),
      children.length - pg * k ≤ N →
      weightList (rawSeq k deco path children pg) ≤
        weightList (children.drop (pg * k)) := by
  intro N
  induction N with
  | zero =>
    intro children pg hN
    have hdrop : children.drop (pg * k) = [] :=
      List.drop_eq_nil_of_le (by omega)
    rw [rawSeq.eq_def]
    cases hdeco : deco path pg
    case ok => simp [hdrop, weightList]
    all_goals simp [weightList]
  | succ N ih =>
    intro children pg hN
    rw [rawSeq.eq_def]
    cases hdeco : deco path pg
    case ok =>
      by_cases hemp : ((children.drop (pg * k)).take k).isEmpty
      · rw [if_pos hemp]
        simp [weightList]
      · rw [if_neg hemp]
        by_cases hshort : ((children.drop (pg * k)).take k).length < k
        · rw [if_pos hshort]
          exact weightList_take_le _ _
        · rw [if_neg hshort]
          have hslice : ((children.drop (pg * k)).take k).length ≤ k :=
            List.length_take_le _ _
          have hlen2 : ((children.drop (pg * k)).take k).length ≤
              children.length - pg * k := by
            have h1 := List.length_take k (children.drop (pg * k))
            have h2 := List.length_drop (pg * k) children
            omega
          have hne : ((children.drop (pg * k)).take k).length ≠ 0 := by
            intro h0
            exact hemp (List.isEmpty_iff_length_eq_zero.mpr h0)
          have hmul : (pg + 1) * k = pg * k + k := by ring
          have hmeas : children.length - (pg + 1) * k ≤ N := by omega
          have hrec := ih children (pg + 1) hmeas
          rw [weightList_append]
          have hdd : children.drop ((pg + 1) * k) =
              (children.drop (pg * k)).drop k := by
            rw [List.drop_drop]
            ring_nf
          rw [hdd] at hrec
          have := weightList_take_add_drop (children.drop (pg * k)) k
          omega
    all_goals simp [weightList]

/-- Processing an item sequence equals the pre-order traversal of the
error-pruned sequence, provided no page response has the raising shape. -/
theorem processItems_eq_leaves (k : Nat) (hk : 0 < k) (deco : ListEnv)
    (hnb : ∀ p n, deco p n ≠ .badShape) :
    ∀ (N : Nat) (items : List FSNode) (path : String) (fuel : Nat),
      weightList items ≤ N → weightList items ≤ fuel →
      processItems k deco path items =
        some (leavesList path (pruneItemsF k deco fuel path items)) := by
  intro N
  induction N with
  | zero =>
    intro items path fuel hN _hfuel
    cases items with
    | nil => simp [processItems, pruneItemsF, leavesList]
    | cons c rest =>
      have := weight_pos c
      rw [weightList_cons] at hN
      omega
  | succ N ih =>
    intro items path fuel hN hfuel
    cases items with
    | nil => simp [processItems, pruneItemsF, leavesList]
    | cons c rest =>
      cases c with
      | file n s =>
        rw [weightList_cons] at hN hfuel
        simp only [FSNode.weight] at hN hfuel
        have hrest := ih rest path fuel (by omega) (by omega)
        simp [processItems, pruneItemsF, pruneNodeF, leavesList, leavesNode,
          hrest]
      | dir n cs =>
        rw [weightList_cons] at hN hfuel
        simp only [FSNode.weight] at hN hfuel
        cases fuel with
        | zero => omega
        | succ f =>
          have hE1 : listDirGo k deco (joinPath path n) cs 0 =
              processItems k deco (joinPath path n)
                (rawSeq k deco (joinPath path n) cs 0) := by
            apply listDirGo_eq_raw k hk deco hnb (joinPath path n) cs.length
            omega
          have hraw : weightList (rawSeq k deco (joinPath path n) cs 0) ≤
              weightList cs := by
            have := rawSeq_weight_le k deco (joinPath path n) cs.length cs 0
              (by omega)
            simpa using this
          have hsub := ih (rawSeq k deco (joinPath path n) cs 0)
            (joinPath path n) f (by omega) (by omega)
          have hrest := ih rest path (f + 1) (by omega) (by omega)
          simp [processItems, pruneItemsF, pruneNodeF, leavesList, leavesNode,
            hE1, hsub, hrest]

/-- With the error-free environment, every directory serves its entire
child list. -/
theorem rawSeq_decoOk (k : Nat) (hk : 0 < k) (path : String) :
    ∀ (N : Nat) (children : List FSNode) (pg : Nat),
      children.length - pg * k ≤ N →
      rawSeq k decoOk path children pg = children.drop (pg * k) := by
  intro N
  induction N with
  | zero =>
    intro children pg hN
    have hdrop : children.drop (pg * k) = [] :=
      List.drop_eq_nil_of_le (by omega)
    rw [rawSeq.eq_def]
    simp [decoOk, hdrop]
  | succ N ih =>
    intro children pg hN
    rw [rawSeq.eq_def]
    show (if ((children.drop (pg * k)).take k).isEmpty then []
      else if ((children.drop (pg * k)).take k).length < k then
        (children.drop (pg * k)).take k
      else
        (children.drop (pg * k)).take k ++ rawSeq k decoOk path children
          (pg + 1)) = children.drop (pg * k)
    by_cases hemp : ((children.drop (pg * k)).take k).isEmpty
    · rw [if_pos hemp]
      have h0 : ((children.drop (pg * k)).take k).length = 0 := by
        rw [List.isEmpty_iff_length_eq_zero] at hemp
        exact hemp
      have h1 := List.length_take k (children.drop (pg * k))
      have h2 := List.length_drop (pg * k) children
      have : children.drop (pg * k) = [] := by
        apply List.eq_nil_of_length_eq_zero
        omega
      rw [this]
    · rw [if_neg hemp]
      by_cases hshort : ((children.drop (pg * k)).take k).length < k
      · rw [if_pos hshort]
        apply List.take_of_length_le
        have h1 := List.length_take k (children.drop (pg * k))
        omega
      · rw [if_neg hshort]
        have hslice : ((children.drop (pg * k)).take k).length ≤ k :=
          List.length_take_le _ _
        have hlen2 : ((children.drop (pg * k)).take k).length ≤
            children.length - pg * k := by
          have h1 := List.length_take k (children.drop (pg * k))
          have h2 := List.length_drop (pg * k) children
          omega
        have hne : ((children.drop (pg * k)).take k).length ≠ 0 := by
          intro h0
          exact hemp (List.isEmpty_iff_length_eq_zero.mpr h0)
        have hmul : (pg + 1) * k = pg * k + k := by ring
        have hrec := ih children (pg + 1) (by omega)
        rw [hrec]
        have hdd : children.drop ((pg + 1) * k) =
            (children.drop (pg * k)).drop k := by
          rw [List.drop_drop]
          ring_nf
        rw [hdd]
        exact List.take_append_drop k (children.drop (pg * k))

/-- With the error-free environment, pruning is the identity. -/
theorem pruneItemsF_decoOk (k : Nat) (hk : 0 < k) :
    ∀ (N : Nat) (l : List FSNode) (path : String) (fuel : Nat),
      weightList l ≤ N → weightList l ≤ fuel →
      pruneItemsF k decoOk fuel path l = l := by
  intro N
  induction N with
  | zero =>
    intro l path fuel hN _hfuel
    cases l with
    | nil => simp [pruneItemsF]
    | cons c rest =>
      have := weight_pos c
      rw [weightList_cons] at hN
      omega
  | succ N ih =>
    intro l path fuel hN hfuel
    cases l with
    | nil => simp [pruneItemsF]
    | cons c rest =>
      cases c with
      | file n s =>
        rw [weightList_cons] at hN hfuel
        simp only [FSNode.weight] at hN hfuel
        have hrest := ih rest path fuel (by omega) (by omega)
        simp [pruneItemsF, pruneNodeF, hrest]
      | dir n cs =>
        rw [weightList_cons] at hN hfuel
        simp only [FSNode.weight] at hN hfuel
        cases fuel with
        | zero => omega
        | succ f =>
          have hraw : rawSeq k decoOk (joinPath path n) cs 0 = cs := by
            have := rawSeq_decoOk k hk (joinPath path n) cs.length cs 0
              (by omega)
            simpa using this
          have hcs := ih cs (joinPath path n) f (by omega) (by omega)
          have hrest := ih rest path (f + 1) (by omega) (by omega)
          simp [pruneItemsF, pruneNodeF, hraw, hcs, hrest]

/-! ## Claims C1 and C5 -/

/-- C1: over an error-free remote list API serving the tree `children`
(and a positive configured page size), `list_dir` returns exactly the
pre-order sequence of the non-directory entries reachable from `path` —
each leaf exactly once, a directory's recursive listing spliced in before
the remainder of its page, each entry's path being the parent path with
trailing slashes stripped plus `"/"` plus the name, and each size taken
from the listing with default 0; pagination stops on an empty or short
page, which is why the whole child list of every directory is consumed. -/
theorem c1_list_dir_preorder (k : Nat) (hk : 0 < k) (path : String)
    (children : List FSNode) :
    list_dir k decoOk path children = some (leavesList path children) := by
  have hnb : ∀ p n, decoOk p n ≠ .badShape := by
    intro p n h
    simp [decoOk] at h
  unfold list_dir
  rw [listDirGo_eq_raw k hk decoOk hnb path children.length children 0
    (by omega)]
  have hraw : rawSeq k decoOk path children 0 = children := by
    have := rawSeq_decoOk k hk path children.length children 0 (by omega)
    simpa using this
  rw [hraw]
  rw [processItems_eq_leaves k hk decoOk hnb (weightList children) children
    path (weightList children) le_rfl le_rfl]
  rw [pruneItemsF_decoOk k hk (weightList children) children path
    (weightList children) le_rfl le_rfl]

/-- C1 witness: the specification's end-to-end example (`/root` containing
directory `a` with file `f1` of size 10 and file `f2` of size 20), listed
at page size 2. -/
theorem c1_list_dir_preorder_witness :
    0 < 2 ∧
      list_dir 2 decoOk "/root"
        [FSNode.dir "a" [FSNode.file "f1" (some 10)],
          FSNode.file "f2" (some 20)] =
      some (leavesList "/root"
        [FSNode.dir "a" [FSNode.file "f1" (some 10)],
          FSNode.file "f2" (some 20)]) :=
  ⟨by decide, c1_list_dir_preorder 2 (by decide) "/root" _⟩

/-- C5 counterexample: `list_dir` *can* raise.  A status-200 `code == 200`
response whose `data`/`data.content` is missing or mis-shaped makes line
163 (`data["data"]["content"]`, outside any `try`) raise to the caller, so
the claim's "list_dir never raises" is false as stated. -/
theorem c5_counterexample :
    list_dir 2 (fun _ _ => PageResp.badShape) "/r"
      [FSNode.file "f" (some 1)] = none := by
  unfold list_dir
  rw [listDirGo.eq_def]

/-- C5 (amended): provided every page response parses into the expected
`data.content` shape (no `badShape`), `list_dir` never raises, and each of
the five error branches (timeout, transport exception, non-200 status,
non-JSON body, application error code) only terminates the current
directory's pagination loop: the result is exactly the pre-order traversal
of the pruned tree in which every directory keeps just the items served by
its own pages before its first error, including complete recursive
listings of the directories among them. -/
theorem c5_list_dir_error_locality (k : Nat) (hk : 0 < k) (deco : ListEnv)
    (hnb : ∀ p n, deco p n ≠ .badShape) (path : String)
    (children : List FSNode) :
    list_dir k deco path children =
      some (leavesList path (prunedForest k deco path children)) := by
  unfold list_dir prunedForest
  rw [listDirGo_eq_raw k hk deco hnb path children.length children 0
    (by omega)]
  have hw : weightList (rawSeq k deco path children 0) ≤
      weightList children := by
    have := rawSeq_weight_le k deco path children.length children 0 (by omega)
    simpa using this
  exact processItems_eq_leaves k hk deco hnb (weightList children) _ path
    (weightList children) hw hw

/-- C5 witness: a tree whose subdirectory `/r/a` always answers with an
HTTP error while everything else is healthy, listed at page size 2. -/
theorem c5_list_dir_error_locality_witness :
    (0 < 2 ∧
      ∀ (p : String) (n : Nat),
        (fun (q : String) (_ : Nat) =>
          if q = "/r/a" then PageResp.errStatus else PageResp.ok) p n ≠
          PageResp.badShape) ∧
      list_dir 2
        (fun q _ => if q = "/r/a" then PageResp.errStatus else PageResp.ok)
        "/r"
        [FSNode.dir "a" [FSNode.file "g" (some 3)],
          FSNode.file "f2" (some 20)] =
      some (leavesList "/r"
        (prunedForest 2
          (fun q _ => if q = "/r/a" then PageResp.errStatus else PageResp.ok)
          "/r"
          [FSNode.dir "a" [FSNode.file "g" (some 3)],
            FSNode.file "f2" (some 20)])) :=
  ⟨⟨by decide, fun p n => by by_cases h : p = "/r/a" <;> simp [h]⟩,
    c5_list_dir_error_locality 2 (by decide) _
      (fun p n => by by_cases h : p = "/r/a" <;> simp [h]) "/r" _⟩

/-! ## Claims C3, C4 and C6 -/

/-- The stream fallback never reports `Skipped`. -/
theorem stream_not_skipped (env : DlEnv) (fs : LocalFS) (lp : String) :
    (download_via_stream env fs lp).2 ≠ .skipped := by
  unfold download_via_stream
  rcases env.streamResp with _ | ⟨st, bytes⟩
  · simp
  · dsimp only
    split_ifs <;> simp

/-- The skip check fires exactly when a positive-size local file exists,
the stat succeeds, and the reported size compares equal to the local
size. -/
theorem skipCheck_iff (s : Option HttpResp) (fs : LocalFS) (lp : String) :
    skipCheck true s fs lp = true ↔
      ∃ content, fs lp = some content ∧ 0 < content.length ∧
        ∃ v, get_file_size s = some v ∧
          pyEqInt (content.length : Int) v = true := by
  unfold skipCheck
  rcases hf : fs lp with _ | content
  · simp
  · rcases hg : get_file_size s with _ | v
    · simp
    · simp [Bool.and_eq_true, decide_eq_true_eq]

/-- No branch of the post-skip transfer reports `Skipped`. -/
theorem downloadTransfer_not_skipped (env : DlEnv) (fs : LocalFS)
    (lp : String) : (downloadTransfer env fs lp).outcome ≠ .skipped := by
  unfold downloadTransfer
  repeat' split
  all_goals first
    | exact stream_not_skipped env fs lp
    | simp

/-- When the skip check does not fire, no branch of `download_file` reports
`Skipped`. -/
theorem download_not_skipped (skipE : Bool) (env : DlEnv) (fs : LocalFS)
    (rp lp : String) (hmk : env.makedirsOk = true)
    (hsc : skipCheck skipE env.statResp fs lp = false) :
    ∀ res, download_file skipE env fs rp lp = some res →
      res.outcome ≠ .skipped := by
  intro res hres
  unfold download_file at hres
  rw [hmk, hsc] at hres
  simp only [Bool.not_true, Bool.false_eq_true, if_false] at hres
  injection hres with h
  subst h
  exact downloadTransfer_not_skipped env fs lp

/-- C3: with `skip_existing` enabled (and the local directory creation
succeeding — when the local file already exists its parent directory
exists, so `os.makedirs` with `exist_ok=True` succeeds), `download_file`
reports `Skipped` if and only if a local file of positive size exists at
the mapped path, the dedicated stat call succeeds, and the reported remote
size equals the local size; and in that case the local filesystem is left
untouched and no transfer request is made.  Any stat failure
(`get_file_size = none`) or size mismatch abandons the skip and the
transfer proceeds. -/
theorem c3_skip_iff (env : DlEnv) (fs : LocalFS) (rp lp : String)
    (hmk : env.makedirsOk = true) :
    ((∃ res, download_file true env fs rp lp = some res ∧
        res.outcome = .skipped) ↔
      ∃ content, fs lp = some content ∧ 0 < content.length ∧
        ∃ v, get_file_size env.statResp = some v ∧
          pyEqInt (content.length : Int) v = true) ∧
    ((∃ content, fs lp = some content ∧ 0 < content.length ∧
        ∃ v, get_file_size env.statResp = some v ∧
          pyEqInt (content.length : Int) v = true) →
      download_file true env fs rp lp = some ⟨fs, .skipped, 0, 0⟩) := by
  by_cases hsc : skipCheck true env.statResp fs lp = true
  · have hdl : download_file true env fs rp lp = some ⟨fs, .skipped, 0, 0⟩ := by
      unfold download_file
      rw [hmk, hsc]
      simp
    refine ⟨⟨fun _ => (skipCheck_iff _ _ _).mp hsc,
      fun _ => ⟨⟨fs, .skipped, 0, 0⟩, hdl, rfl⟩⟩, fun _ => hdl⟩
  · have hsc2 : skipCheck true env.statResp fs lp = false := by
      revert hsc
      cases skipCheck true env.statResp fs lp <;> simp
    refine ⟨⟨?_, ?_⟩, ?_⟩
    · rintro ⟨res, hres, hout⟩
      exact absurd hout (download_not_skipped true env fs rp lp hmk hsc2 res hres)
    · intro hrhs
      exact absurd ((skipCheck_iff _ _ _).mpr hrhs) hsc
    · intro hrhs
      exact absurd ((skipCheck_iff _ _ _).mpr hrhs) hsc

/-- C3 witness: a 3-byte local file at the mapped path and a stat call
reporting size 3 make the download a skip. -/
theorem c3_skip_iff_witness :
    (⟨true,
        some ⟨200, some (Json.obj [("code", Json.num 200),
          ("data", Json.obj [("size", Json.num 3)])]), ""⟩,
        none, fun _ => none, none, true⟩ : DlEnv).makedirsOk = true ∧
      download_file true
        ⟨true,
          some ⟨200, some (Json.obj [("code", Json.num 200),
            ("data", Json.obj [("size", Json.num 3)])]), ""⟩,
          none, fun _ => none, none, true⟩
        (fun q => if q = "/d/f" then some [7, 7, 7] else none)
        "/r/f" "/d/f" =
        some ⟨fun q => if q = "/d/f" then some [7, 7, 7] else none,
          .skipped, 0, 0⟩ :=
  ⟨rfl,
    (c3_skip_iff _ (fun q => if q = "/d/f" then some [7, 7, 7] else none)
        "/r/f" "/d/f" rfl).2
      ⟨[7, 7, 7], by simp, by decide, Json.num 3, rfl, by decide⟩⟩

/-- C4 counterexample: `os.makedirs(os.path.dirname(local_path),
exist_ok=True)` at line 227 runs *outside* the `try` block; when it raises
(for example because a component of the target directory path exists as a
regular file), the exception propagates to `download_file`'s caller, so
the claim's "download_file never raises" is false as stated. -/
theorem c4_counterexample :
    download_file true ⟨false, none, none, fun _ => none, none, true⟩
      (fun _ => none) "/r/f" "/d/f" = none := rfl

/-- C4 (amended): once the initial local directory creation succeeds,
`download_file` never raises: every exception arising in the skip check,
the direct-URL path or the stream fallback path (transport errors, bad
bodies, local file I/O) is caught and converted to a per-item outcome, so
one entry's failure cannot abort the batch. -/
theorem c4_no_raise_after_makedirs (skipE : Bool) (env : DlEnv)
    (fs : LocalFS) (rp lp : String) (hmk : env.makedirsOk = true) :
    ∃ res, download_file skipE env fs rp lp = some res := by
  unfold download_file
  rw [hmk]
  simp only [Bool.not_true, Bool.false_eq_true, if_false]
  by_cases hsc : skipCheck skipE env.statResp fs lp = true
  · rw [if_pos hsc]
    exact ⟨_, rfl⟩
  · rw [if_neg hsc]
    exact ⟨_, rfl⟩

/-- C4 witness: a fully failing environment (every request raises) still
returns an outcome rather than raising. -/
theorem c4_no_raise_after_makedirs_witness :
    (⟨true, none, none, fun _ => none, none, true⟩ : DlEnv).makedirsOk =
        true ∧
      ∃ res, download_file true
        ⟨true, none, none, fun _ => none, none, true⟩
        (fun _ => none) "/r/f" "/d/f" = some res :=
  ⟨rfl, c4_no_raise_after_makedirs true _ _ "/r/f" "/d/f" rfl⟩

/-- C6 counterexample: a fully successful `/api/fs/get` response
(`status 200`, `code == 200`) that simply has no `data` member carries no
`raw_url`, yet the stream fallback is *not* invoked: line 254
(`data["data"]`) raises `KeyError` inside the `try`, which is caught and
logged as a plain failure.  This falsifies the claim's "its successful
response carries no raw_url → the stream fallback is invoked exactly
once". -/
theorem c6_counterexample :
    download_file false
      ⟨true, none, some ⟨200, some (Json.obj [("code", Json.num 200)]), ""⟩,
        fun _ => none, none, true⟩
      (fun _ => none) "/r/f" "/d/f" =
      some ⟨fun _ => none, .failed, 0, 0⟩ := rfl

/-- C6 (amended): once the transfer stage is reached, the stream fallback
is invoked exactly once — and no direct fetch happens — precisely when the
get call fails outright (non-200 status, non-JSON or falsy body,
application `code != 200`) or a successful response carries a `data`
object without a truthy `raw_url`; a truthy `raw_url` instead yields
exactly one direct fetch and no stream call; and in the remaining cases
(transport exception, truthy non-dict body, or a `code == 200` response
whose `data` is missing or not a dict) neither transfer request is made
and the item fails directly. -/
theorem c6_fallback_characterization (skipE : Bool) (env : DlEnv)
    (fs : LocalFS) (rp lp : String) (hmk : env.makedirsOk = true)
    (hsc : skipCheck skipE env.statResp fs lp = false) :
    download_file skipE env fs rp lp = some (downloadTransfer env fs lp) ∧
    (downloadTransfer env fs lp).streamCalls =
      (if getFallsBack env.getResp then 1 else 0) ∧
    (downloadTransfer env fs lp).rawFetches =
      (if (getDirectUrl env.getResp).isSome then 1 else 0) ∧
    (getFallsBack env.getResp = false → getDirectUrl env.getResp = none →
      (downloadTransfer env fs lp).outcome = .failed) := by
  refine ⟨?_, ?_⟩
  · unfold download_file
    rw [hmk, hsc]
    simp
  unfold downloadTransfer getFallsBack getDirectUrl
  rcases hg : env.getResp with _ | ⟨st, body, text⟩
  · simp
  · dsimp only
    by_cases hst : st ≠ 200
    · simp [hst]
    · rw [not_ne_iff] at hst
      subst hst
      rcases body with _ | j
      · simp
      · cases hjf : j.falsy
        · cases j with
          | obj fields =>
            cases hcode : pyEqIntO 200 (fields.lookup "code")
            · simp [hjf, hcode]
            · rcases hdata : fields.lookup "data" with _ | dj
              · simp [hjf, hcode, hdata]
              · cases dj with
                | obj dfields =>
                  rcases hurl : dfields.lookup "raw_url" with _ | u
                  · simp [hjf, hcode, hdata, hurl]
                  · cases huf : u.falsy
                    · cases u with
                      | str url =>
                        rcases hraw : env.rawGet url with _ | ⟨st2, bytes⟩
                        · simp [hjf, hcode, hdata, hurl, huf, hraw]
                        · by_cases h2 : st2 = 200 <;>
                            cases hwok : env.writeOk <;>
                              simp [hjf, hcode, hdata, hurl, huf, hraw, h2,
                                hwok]
                      | null => simp [hjf, hcode, hdata, hurl, huf]
                      | bool b => simp [hjf, hcode, hdata, hurl, huf]
                      | num m => simp [hjf, hcode, hdata, hurl, huf]
                      | arr xs => simp [hjf, hcode, hdata, hurl, huf]
                      | obj ofs => simp [hjf, hcode, hdata, hurl, huf]
                    · simp [hjf, hcode, hdata, hurl, huf]
                | null => simp [hjf, hcode, hdata]
                | bool b => simp [hjf, hcode, hdata]
                | num m => simp [hjf, hcode, hdata]
                | str s2 => simp [hjf, hcode, hdata]
                | arr xs => simp [hjf, hcode, hdata]
          | null => simp [hjf]
          | bool b => simp [hjf]
          | num m => simp [hjf]
          | str s2 => simp [hjf]
          | arr xs => simp [hjf]
        · simp [hjf]

/-- C6 witness: a response carrying a truthy `raw_url` produces exactly one
direct fetch and no stream call. -/
theorem c6_fallback_characterization_witness :
    (downloadTransfer
        ⟨true, none,
          some ⟨200, some (Json.obj [("code", Json.num 200),
            ("data", Json.obj [("raw_url", Json.str "http://u")])]), ""⟩,
          (fun _ => some (200, [1, 2])), none, true⟩
        (fun _ => none) "/d/f").rawFetches = 1 ∧
      (downloadTransfer
        ⟨true, none,
          some ⟨200, some (Json.obj [("code", Json.num 200),
            ("data", Json.obj [("raw_url", Json.str "http://u")])]), ""⟩,
          (fun _ => some (200, [1, 2])), none, true⟩
        (fun _ => none) "/d/f").streamCalls = 0 := by
  have h := c6_fallback_characterization false
    ⟨true, none,
      some ⟨200, some (Json.obj [("code", Json.num 200),
        ("data", Json.obj [("raw_url", Json.str "http://u")])]), ""⟩,
      (fun _ => some (200, [1, 2])), none, true⟩
    (fun _ => none) "/r/f" "/d/f" rfl rfl
  refine ⟨?_, ?_⟩
  · rw [h.2.2.1]
    rfl
  · rw [h.2.1]
    rfl

/-! ## Claims C7 and C8 -/

/-- C7: with the local file present and readable, `upload_file` reports
success exactly when the PUT response has an HTTP status in
{200, 201, 204} *and* a JSON dict body whose application `code` equals
200; every other combination (transport exception, wrong status, code
other than 200, non-dict or non-JSON body) yields `False`; and a non-JSON
body is captured for diagnostics truncated to its first 1000 characters
("Empty response" when the text is empty). -/
theorem c7_upload_success_iff (env : UpEnv) (lp rp : String)
    (hex : env.localExists = true) (hrd : env.localReadOk = true) :
    ((upload_file env lp rp).1 = true ↔
      ∃ r fields, env.putResp = some r ∧ r.body = some (Json.obj fields) ∧
        (r.status = 200 ∨ r.status = 201 ∨ r.status = 204) ∧
        pyEqIntO 200 (fields.lookup "code") = true) ∧
    (∀ r, env.putResp = some r → r.body = none →
      (upload_file env lp rp).2 =
        some (if r.text = "" then "Empty response" else r.text.take 1000)) := by
  unfold upload_file
  rw [hex, hrd]
  simp only [Bool.not_true, Bool.false_eq_true, if_false]
  rcases hput : env.putResp with _ | ⟨st, body, text⟩
  · simp
  · rcases body with _ | j
    · simp
    · constructor
      · by_cases hstat : st = 200 ∨ st = 201 ∨ st = 204
        · have hb : (decide (st = 200) || decide (st = 201) ||
              decide (st = 204)) = true := by
            rcases hstat with h | h | h <;> simp [h]
          cases j with
          | obj fields => simp [hb, hstat]
          | null => simp [hb, hstat]
          | bool b => simp [hb, hstat]
          | num m => simp [hb, hstat]
          | str s2 => simp [hb, hstat]
          | arr xs => simp [hb, hstat]
        · have hb : (decide (st = 200) || decide (st = 201) ||
              decide (st = 204)) = false := by
            simp only [Bool.or_eq_false_iff, decide_eq_false_iff_not]
            push_neg at hstat
            exact ⟨⟨hstat.1, hstat.2.1⟩, hstat.2.2⟩
          simp [hb, hstat]
      · intro r hr hbody
        simp only [Option.some.injEq] at hr
        rw [← hr] at hbody
        simp at hbody

/-- C7 witness: a 200 response with a `code == 200` dict body is reported
as a success. -/
theorem c7_upload_success_iff_witness :
    (⟨true, true, none,
        some ⟨200, some (Json.obj [("code", Json.num 200)]), "ok"⟩⟩ :
      UpEnv).localExists = true ∧
      (⟨true, true, none,
          some ⟨200, some (Json.obj [("code", Json.num 200)]), "ok"⟩⟩ :
        UpEnv).localReadOk = true ∧
      (upload_file
        ⟨true, true, none,
          some ⟨200, some (Json.obj [("code", Json.num 200)]), "ok"⟩⟩
        "/tmp/f" "/up/a.txt").1 = true :=
  ⟨rfl, rfl,
    (c7_upload_success_iff _ "/tmp/f" "/up/a.txt" rfl rfl).1.mpr
      ⟨⟨200, some (Json.obj [("code", Json.num 200)]), "ok"⟩,
        [("code", Json.num 200)], rfl, rfl, Or.inl rfl, rfl⟩⟩

/-- C8 counterexample: the result of the idempotent directory-creation
call is discarded (source lines 337-338), so a 401/invalid-credential
mkdir response — on which `create_directory` itself returns `False` —
does *not* make the upload item `Failed`: with a healthy PUT response the
item still succeeds.  This falsifies the claim's "that upload item's
outcome is Failed". -/
theorem c8_counterexample :
    create_directory
      (some ⟨401, some (Json.obj [("code", Json.num 401),
        ("message", Json.str "invalid token")]), ""⟩) = false ∧
    upload_file
      ⟨true, true,
        some ⟨401, some (Json.obj [("code", Json.num 401),
          ("message", Json.str "invalid token")]), ""⟩,
        some ⟨200, some (Json.obj [("code", Json.num 200)]), ""⟩⟩
      "/tmp/f" "/up/a.txt" = (true, none) := by
  constructor
  · rfl
  · rfl

/-- C8 (amended): the upload item's outcome is determined solely by the
PUT — `upload_file` is invariant under the mkdir response, so a
401/invalid-credential mkdir (on which `create_directory` returns
`False` and logs an auth error) does not fail the item; and a plain
success and an "already exists" answer are treated identically by
`create_directory` (both `True`), with a 401 distinguished only in its
return value and log line. -/
theorem c8_mkdir_result_ignored (le lr : Bool) (m1 m2 put : Option HttpResp)
    (lp rp : String) :
    upload_file ⟨le, lr, m1, put⟩ lp rp =
      upload_file ⟨le, lr, m2, put⟩ lp rp ∧
    create_directory
      (some ⟨200, some (Json.obj [("code", Json.num 200)]), ""⟩) = true ∧
    create_directory
      (some ⟨403, some (Json.obj [("code", Json.num 403),
        ("message", Json.str "folder already exists")]), ""⟩) = true ∧
    create_directory
      (some ⟨401, some (Json.obj [("code", Json.num 401),
        ("message", Json.str "invalid token")]), ""⟩) = false := by
  refine ⟨rfl, rfl, ?_, rfl⟩
  rfl

/-! ## Claims C9 and C10 -/

/-- A slash-joined child path is never the empty string. -/
theorem joinPath_ne_empty (p n : String) : joinPath p n ≠ "" := by
  unfold joinPath
  intro h
  have hlen := congrArg String.length h
  have hone : ("/" : String).length = 1 := rfl
  simp [String.length_append] at hlen
  omega

/-- Every entry a (sub)listing returns carries a non-empty path, whatever
the page responses were: entries are only ever created with a slash-joined
path.  Proven simultaneously for the item-processing loop (by strong
induction on forest weight) and the pagination loop (by an inner induction
on the unserved suffix). -/
theorem listDir_paths_aux (k : Nat) (deco : ListEnv) :
    ∀ (M : Nat),
      (∀ (items : List FSNode) (path : String) (entries : List Entry),
        weightList items ≤ M →
        processItems k deco path items = some entries →
        ∀ e ∈ entries, e.path ≠ "") ∧
      (∀ (children : List FSNode) (path : String) (pg : Nat)
          (entries : List Entry),
        weightList children ≤ M →
        listDirGo k deco path children pg = some entries →
        ∀ e ∈ entries, e.path ≠ "") := by
  intro M
  induction M with
  | zero =>
    constructor
    · intro items path entries hW hP e he
      cases items with
      | nil =>
        simp [processItems] at hP
        subst hP
        simp at he
      | cons c rest =>
        have := weight_pos c
        rw [weightList_cons] at hW
        omega
    · intro children path pg entries hW hL e he
      cases children with
      | nil =>
        rw [listDirGo.eq_def] at hL
        cases hdeco : deco path pg <;> rw [hdeco] at hL <;>
          simp at hL <;> subst hL <;> simp at he
      | cons c rest =>
        have := weight_pos c
        rw [weightList_cons] at hW
        omega
  | succ M ih =>
    have Hp : ∀ (items : List FSNode) (path : String) (entries : List Entry),
        weightList items ≤ M + 1 →
        processItems k deco path items = some entries →
        ∀ e ∈ entries, e.path ≠ "" := by
      intro items path entries hW hP e he
      cases items with
      | nil =>
        simp [processItems] at hP
        subst hP
        simp at he
      | cons c rest =>
        cases c with
        | file n s =>
          rw [weightList_cons] at hW
          simp only [FSNode.weight] at hW
          cases hrest : processItems k deco path rest with
          | none => simp [processItems, hrest] at hP
          | some es =>
            simp [processItems, hrest] at hP
            subst hP
            rcases List.mem_cons.mp he with rfl | he2
            · exact joinPath_ne_empty path n
            · exact ih.1 rest path es (by omega) hrest e he2
        | dir n cs =>
          rw [weightList_cons] at hW
          simp only [FSNode.weight] at hW
          cases hsub : listDirGo k deco (joinPath path n) cs 0 with
          | none => simp [processItems, hsub] at hP
          | some sub =>
            cases hrest : processItems k deco path rest with
            | none => simp [processItems, hsub, hrest] at hP
            | some es =>
              simp [processItems, hsub, hrest] at hP
              subst hP
              rcases List.mem_append.mp he with he2 | he2
              · exact ih.2 cs (joinPath path n) 0 sub (by omega) hsub e he2
              · exact ih.1 rest path es (by omega) hrest e he2
    refine ⟨Hp, ?_⟩
    intro children path pg entries hW hL
    have Hinner : ∀ (n : Nat) (pg2 : Nat) (entries2 : List Entry),
        children.length - pg2 * k ≤ n →
        listDirGo k deco path children pg2 = some entries2 →
        ∀ e ∈ entries2, e.path ≠ "" := by
      intro n
      induction n with
      | zero =>
        intro pg2 entries2 hN hL2 e he
        have hdrop : children.drop (pg2 * k) = [] :=
          List.drop_eq_nil_of_le (by omega)
        rw [listDirGo.eq_def] at hL2
        cases hdeco : deco path pg2 <;> rw [hdeco] at hL2 <;>
          simp [hdrop] at hL2 <;> subst hL2 <;> simp at he
      | succ n ihn =>
        intro pg2 entries2 hN hL2 e he
        rw [listDirGo.eq_def] at hL2
        cases hdeco : deco path pg2 <;> rw [hdeco] at hL2
        case ok =>
          dsimp only at hL2
          by_cases hemp : ((children.drop (pg2 * k)).take k).isEmpty
          · rw [dif_pos hemp] at hL2
            simp at hL2
            subst hL2
            simp at he
          · rw [dif_neg hemp] at hL2
            cases hslice : processItems k deco path
                ((children.drop (pg2 * k)).take k) with
            | none =>
              rw [hslice] at hL2
              simp at hL2
            | some es =>
              rw [hslice] at hL2
              dsimp only at hL2
              have hWslice : weightList
                  ((children.drop (pg2 * k)).take k) ≤ M + 1 := by
                have h1 := weightList_take_le (children.drop (pg2 * k)) k
                have h2 := weightList_drop_le children (pg2 * k)
                omega
              by_cases hshort :
                  ((children.drop (pg2 * k)).take k).length < k
              · rw [dif_pos hshort] at hL2
                simp at hL2
                subst hL2
                exact Hp _ path es hWslice hslice e he
              · rw [dif_neg hshort] at hL2
                cases hrec : listDirGo k deco path children (pg2 + 1) with
                | none =>
                  rw [hrec] at hL2
                  simp at hL2
                | some rest2 =>
                  rw [hrec] at hL2
                  dsimp only at hL2
                  simp at hL2
                  subst hL2
                  rcases List.mem_append.mp he with he2 | he2
                  · exact Hp _ path es hWslice hslice e he2
                  · have hlen1 : ((children.drop (pg2 * k)).take k).length ≤
                        k := List.length_take_le _ _
                    have hlen2 : ((children.drop (pg2 * k)).take k).length ≤
                        children.length - pg2 * k := by
                      have h1 := List.length_take k
                        (children.drop (pg2 * k))
                      have h2 := List.length_drop (pg2 * k) children
                      omega
                    have hne2 : ((children.drop (pg2 * k)).take k).length ≠
                        0 := by
                      intro h0
                      exact hemp (List.isEmpty_iff_length_eq_zero.mpr h0)
                    have hmul : (pg2 + 1) * k = pg2 * k + k := by ring
                    exact ihn (pg2 + 1) rest2 (by omega) hrec e he2
        all_goals first
          | (simp at hL2
             subst hL2
             simp at he)
          | simp at hL2
    exact Hinner children.length pg entries (by omega) hL

/-- Every entry `list_dir` returns carries a non-empty path (so the
fresh-mode dispatch loop's `os.path.relpath` never sees an empty path). -/
theorem list_dir_paths_ne_empty (k : Nat) (deco : ListEnv) (path : String)
    (children : List FSNode) (entries : List Entry)
    (h : list_dir k deco path children = some entries) :
    ∀ e ∈ entries, e.path ≠ "" := by
  unfold list_dir at h
  exact (listDir_paths_aux k deco (weightList children)).2 children path 0
    entries le_rfl h

/-- C9 counterexample: the claimed "aborted iff a structural condition
holds" fails, because "no entries found for the transfer phase" does not
abort: in fresh download mode an empty listing is logged as a warning and
`run` returns normally (exit 0), and likewise an empty local file set in
upload mode.  (The refutation stands even under the most charitable
scoping — well-formed manifests and well-shaped page responses.) -/
theorem c9_counterexample :
    ¬ (∀ (lO dO uO : Bool) (env : RunEnv),
        (∀ j, env.manifestFile = some j → ∃ l, jsonToFilelist j = some l) →
        (∀ p n, env.listDeco p n ≠ .badShape) →
        ((∃ e, run lO dO uO env = Except.error e) ↔
          (env.loginOk = false ∨
            (uO = true ∧ (strFalsyO env.uploadLocalPath = true ∨
              strFalsyO env.uploadRemotePath = true)) ∨
            (uO = true ∧ env.uploadRootExists = false) ∨
            (uO = false ∧ dO = true ∧ (env.manifestFile = none ∨
              env.manifestFile = some (Json.arr []))) ∨
            (uO = false ∧ dO = false ∧ lO = false ∧
              list_dir env.pageSize env.listDeco env.remotePath env.tree =
                some []) ∨
            (uO = true ∧ env.uploadLocalFiles = [])))) := by
  intro h
  have hld : list_dir 1 decoOk "/r" [] = some [] := by
    unfold list_dir
    rw [listDirGo.eq_def]
    rfl
  have habort := (h false false false
      ⟨true, some "x", some "y", true, [], none, 1, "/r", decoOk, []⟩
      (fun j hj => absurd hj (by simp))
      (fun p n => by simp [decoOk])).mpr
    (Or.inr (Or.inr (Or.inr (Or.inr (Or.inl ⟨rfl, rfl, rfl, hld⟩)))))
  obtain ⟨e, he⟩ := habort
  simp [run, hld] at he

/-- C9 (amended): `run` raises if and only if login fails, or upload mode
misses a config key (falsy `local_path`/`remote_upload_path`) or its local
root, or manifest-reuse mode loads a missing or falsy manifest or a truthy
one the dispatch loop cannot walk (a truthy non-list, or an item without a
non-empty string `path` — `os.path.relpath` at line 530 raises), or the
fresh-mode `list_dir` call itself raises (line 512 has no surrounding
`try`); and exactly the raising runs produce a non-zero exit through
`main`.  "No entries found" in fresh download mode or upload mode merely
warns and completes.  Entries produced by the lister always carry
non-empty slash-joined paths (second conjunct), so fresh-mode dispatch
itself never raises.  Per-item transfer outcomes never appear in `run`'s
control flow at all (the `as_completed` loop never calls
`future.result()`), so item failures cannot change the run's
completion. -/
theorem c9_abort_iff (lO dO uO : Bool) (env : RunEnv) :
    ((∃ e, run lO dO uO env = Except.error e) ↔
      (env.loginOk = false ∨
        (env.loginOk = true ∧ uO = true ∧
          (strFalsyO env.uploadLocalPath ||
            strFalsyO env.uploadRemotePath) = true) ∨
        (env.loginOk = true ∧ uO = true ∧
          (strFalsyO env.uploadLocalPath ||
            strFalsyO env.uploadRemotePath) = false ∧
          env.uploadRootExists = false) ∨
        (env.loginOk = true ∧ uO = false ∧ dO = true ∧
          (env.manifestFile = none ∨
            (∃ j, env.manifestFile = some j ∧ j.falsy = true) ∨
            (∃ j, env.manifestFile = some j ∧ j.falsy = false ∧
              dispatchOk j = false))) ∨
        (env.loginOk = true ∧ uO = false ∧ dO = false ∧
          list_dir env.pageSize env.listDeco env.remotePath env.tree =
            none))) ∧
    (∀ entries,
      list_dir env.pageSize env.listDeco env.remotePath env.tree =
        some entries →
      entries.all (fun e => !(e.path == "")) = true) ∧
    (∀ e, run lO dO uO env = Except.error e →
      mainExitsNonzero (run lO dO uO env) = true) ∧
    (run lO dO uO env = Except.ok () →
      mainExitsNonzero (run lO dO uO env) = false) := by
  obtain ⟨lg, ulp, urp, ure, ulf, mf, ps, rpath, deco, tree⟩ := env
  have hall : ∀ entries, list_dir ps deco rpath tree = some entries →
      entries.all (fun e => !(e.path == "")) = true := by
    intro entries hL
    rw [List.all_eq_true]
    intro e he
    have hne := list_dir_paths_ne_empty ps deco rpath tree entries hL e he
    simpa using hne
  refine ⟨?_, hall, ?_, ?_⟩
  · cases lg
    · simp [run]
    · cases uO
      · cases dO
        · rcases hL : list_dir ps deco rpath tree with _ | entries
          · simp [run, hL]
          · have h2 := hall entries hL
            cases lO <;> cases hemp : entries.isEmpty <;>
              simp [run, hL, h2, hemp]
        · rcases mf with _ | j
          · simp [run]
          · cases hjf : j.falsy
            · cases hdo : dispatchOk j <;> simp [run, hjf, hdo]
            · simp [run, hjf]
      · cases hc : (strFalsyO ulp || strFalsyO urp)
        · cases ure <;> simp [run, hc]
        · simp [run, hc]
  · intro e he
    rw [he]
    rfl
  · intro h
    rw [h]
    rfl

/-- C10: a manifest file that exists but contains an empty JSON array
loads as the empty list, and in manifest-reuse mode `run` raises the same
fatal missing-manifest error on it as on an absent file — the two are
indistinguishable at the public interface. -/
theorem c10_empty_manifest_like_missing (lO : Bool) (ulp urp : Option String)
    (ure : Bool) (ulf : List (String × String)) (ps : Nat) (rpath : String)
    (deco : ListEnv) (tree : List FSNode)
    (fs : JsonFS) (p : String) (hfs : fs p = some (Json.arr [])) :
    load_filelist fs p = some (Json.arr []) ∧
    jsonToFilelist (Json.arr []) = some [] ∧
    run lO true false
        ⟨true, ulp, urp, ure, ulf, some (Json.arr []), ps, rpath, deco,
          tree⟩ =
      Except.error RunErr.manifestMissing ∧
    run lO true false
        ⟨true, ulp, urp, ure, ulf, none, ps, rpath, deco, tree⟩ =
      Except.error RunErr.manifestMissing := by
  refine ⟨hfs, rfl, ?_, ?_⟩ <;> simp [run, Json.falsy]

/-- C10 witness: a file store holding `[]` at `filelist.json`. -/
theorem c10_empty_manifest_like_missing_witness :
    run false true false
        ⟨true, none, none, true, [], some (Json.arr []), 1, "/r", decoOk,
          []⟩ =
      Except.error RunErr.manifestMissing :=
  (c10_empty_manifest_like_missing false none none true [] 1 "/r" decoOk []
    (fun q => if q = "filelist.json" then some (Json.arr []) else none)
    "filelist.json" (by simp)).2.2.1

end OpenList
